import Mathlib

/-!
Verification of the `rate-gate` sliding-window rate limiter
(`src/rate-gate.ts`) against its specification.

The TypeScript source is shallowly embedded below:

* `BackendStore` models the `MemoryBackend`'s `Map<string, number[]>` as an
  association list from keys to timestamp lists (insertion order preserved,
  keys unique on all reachable states).
* `mget`, `mset`, `mdelete`, `mkeys` model `MemoryBackend.get/set/delete/keys`
  (`get` returns `[]` for an absent key, `set` replaces in place or appends).
* `RateGate` carries the configuration fields `limit`, `windowMs`, `category`.
* Each public operation (`check`, `hit`, `resetIn`, `remaining`, `cleanup`)
  is a function of the current instant `now : Int` (epoch milliseconds,
  `Date.now()`) and the backend store; it returns its result, the store after
  the call, and the trace of backend calls (`BCall`) it issued, mirroring the
  sequence of `backend.get/set/delete/keys` invocations in the source.
* `jsCeil1000 x` models `Math.ceil(x / 1000)` on integer milliseconds.
-/

/-- The `MemoryBackend`'s `Map<string, number[]>`: an association list from
keys to timestamp lists. -/
abbrev BackendStore := List (String × List Int)

/-- `MemoryBackend.get`: `this.store.get(key) || []`. -/
def mget : BackendStore → String → List Int
  | [], _ => []
  | (k', v) :: rest, k => if k' = k then v else mget rest k

/-- `MemoryBackend.set`: `this.store.set(key, timestamps)` — replaces the
value in place when the key is present, appends a new entry otherwise. -/
def mset : BackendStore → String → List Int → BackendStore
  | [], k, v => [(k, v)]
  | (k', v') :: rest, k, v =>
    if k' = k then (k, v) :: rest else (k', v') :: mset rest k v

/-- `MemoryBackend.delete`: `this.store.delete(key)`. -/
def mdelete : BackendStore → String → BackendStore
  | [], _ => []
  | (k', v) :: rest, k =>
    if k' = k then mdelete rest k else (k', v) :: mdelete rest k

/-- `MemoryBackend.keys`: `Array.from(this.store.keys())`. -/
def mkeys (s : BackendStore) : List String := s.map Prod.fst

/-- One backend call, as issued by a gate operation. -/
inductive BCall where
  | bget (k : String)
  | bset (k : String) (ts : List Int)
  | bdel (k : String)
  | bkeys
deriving DecidableEq, Repr

/-- A backend call that mutates stored state (`set` or `delete`). -/
def BCall.isWrite : BCall → Bool
  | .bset _ _ => true
  | .bdel _ => true
  | _ => false

/-- The `RateGate` configuration: `limit`, `windowMs` (default 60000) and
`category` (default "rate-limit"), fixed at construction. -/
structure RateGate where
  limit : Nat
  windowMs : Int
  category : String
deriving DecidableEq, Repr

/-- The payload of a thrown `RateLimitError`: `message`, `resetIn`, `limit`,
`windowMs`. -/
structure RateLimitError where
  message : String
  resetIn : Int
  limit : Nat
  windowMs : Int
deriving DecidableEq, Repr

/-- `Math.ceil(x / 1000)` for an integer `x`: ceiling division by 1000,
written with floor division (`Int.fdiv`) on the negation. -/
def jsCeil1000 (x : Int) : Int := -((-x).fdiv 1000)

/-- The shared prune step: `timestamps.filter((ts) => ts > windowStart)` with
`windowStart = now - this.windowMs`. -/
def prune (cfg : RateGate) (now : Int) (l : List Int) : List Int :=
  l.filter (fun ts => now - cfg.windowMs < ts)

/-- `RateGate.check`: prune, then return whether the valid count is under the
limit. Issues a single `get`. -/
def check (cfg : RateGate) (now : Int) (s : BackendStore) (k : String) :
    Bool × BackendStore × List BCall :=
  let validTimestamps := prune cfg now (mget s k)
  (decide (validTimestamps.length < cfg.limit), s, [BCall.bget k])

/-- `RateGate.hit`: prune; if the valid count has reached the limit, throw a
`RateLimitError` built from the first valid timestamp; otherwise append `now`
and write the list back. -/
def hit (cfg : RateGate) (now : Int) (s : BackendStore) (k : String) :
    Except RateLimitError Unit × BackendStore × List BCall :=
  let validTimestamps := prune cfg now (mget s k)
  if cfg.limit ≤ validTimestamps.length then
    let oldestTimestamp := validTimestamps.headD 0
    let resetIn := jsCeil1000 (oldestTimestamp + cfg.windowMs - now)
    (Except.error
      { message := "Rate limit exceeded for " ++ cfg.category ++
          ". Try again in " ++ toString resetIn ++ "s."
        resetIn := resetIn
        limit := cfg.limit
        windowMs := cfg.windowMs },
      s, [BCall.bget k])
  else
    let updated := validTimestamps ++ [now]
    (Except.ok (), mset s k updated, [BCall.bget k, BCall.bset k updated])

/-- `RateGate.resetIn`: prune; 0 when no valid timestamps remain, otherwise
the clamped ceiling of the milliseconds until the oldest one expires. -/
def resetIn (cfg : RateGate) (now : Int) (s : BackendStore) (k : String) :
    Int × BackendStore × List BCall :=
  let validTimestamps := prune cfg now (mget s k)
  if validTimestamps.length = 0 then
    (0, s, [BCall.bget k])
  else
    let oldestTimestamp := validTimestamps.headD 0
    (max 0 (jsCeil1000 (oldestTimestamp + cfg.windowMs - now)),
      s, [BCall.bget k])

/-- `RateGate.remaining`: prune, then `Math.max(0, limit - count)`. -/
def remaining (cfg : RateGate) (now : Int) (s : BackendStore) (k : String) :
    Int × BackendStore × List BCall :=
  let validTimestamps := prune cfg now (mget s k)
  (max 0 ((cfg.limit : Int) - validTimestamps.length), s, [BCall.bget k])

/-- The body of `RateGate.cleanup`'s `for` loop over the key list: delete a
key whose pruned list is empty, write back a strictly shorter pruned list,
leave the key untouched otherwise. -/
def cleanupLoop (cfg : RateGate) (now : Int) :
    List String → BackendStore → BackendStore × List BCall
  | [], s => (s, [])
  | k :: ks, s =>
    let timestamps := mget s k
    let validTimestamps := prune cfg now timestamps
    if validTimestamps.length = 0 then
      let r := cleanupLoop cfg now ks (mdelete s k)
      (r.1, BCall.bget k :: BCall.bdel k :: r.2)
    else if validTimestamps.length < timestamps.length then
      let r := cleanupLoop cfg now ks (mset s k validTimestamps)
      (r.1, BCall.bget k :: BCall.bset k validTimestamps :: r.2)
    else
      let r := cleanupLoop cfg now ks s
      (r.1, BCall.bget k :: r.2)

/-- `RateGate.cleanup`: enumerate all keys, then run the per-key sweep. -/
def cleanup (cfg : RateGate) (now : Int) (s : BackendStore) :
    BackendStore × List BCall :=
  let r := cleanupLoop cfg now (mkeys s) s
  (r.1, BCall.bkeys :: r.2)

/-- Run a sequence of `hit` calls at the given instants on one key, stopping
with `none` at the first failure. -/
def hitSeq (cfg : RateGate) (k : String) :
    List Int → BackendStore → Option BackendStore
  | [], s => some s
  | t :: ts, s =>
    match hit cfg t s k with
    | (Except.ok _, s', _) => hitSeq cfg k ts s'
    | (Except.error _, _, _) => none

/-- Run a sequence of `hit` calls at the given instants on one key, keeping
the store state whether each call succeeds or fails. -/
def hitRun (cfg : RateGate) (k : String) :
    List Int → BackendStore → BackendStore
  | [], s => s
  | t :: ts, s => hitRun cfg k ts (hit cfg t s k).2.1


/-! ### Store lemmas -/

theorem mget_mset_self (s : BackendStore) (k : String) (v : List Int) :
    mget (mset s k v) k = v := by
  induction s with
  | nil => simp [mset, mget]
  | cons e rest ih =>
    obtain ⟨k', v'⟩ := e
    by_cases h : k' = k
    · simp [mset, h, mget]
    · simp [mset, h, mget, ih]

theorem mget_mset_ne (s : BackendStore) {k k' : String} (h : k' ≠ k)
    (v : List Int) : mget (mset s k v) k' = mget s k' := by
  have h' : k ≠ k' := Ne.symm h
  induction s with
  | nil => simp [mset, mget, h']
  | cons e rest ih =>
    obtain ⟨k'', v''⟩ := e
    by_cases hk : k'' = k
    · subst hk
      simp [mset, mget, h']
    · simp [mset, hk, mget, ih]

theorem mget_mdelete_self (s : BackendStore) (k : String) :
    mget (mdelete s k) k = [] := by
  induction s with
  | nil => simp [mdelete, mget]
  | cons e rest ih =>
    obtain ⟨k', v'⟩ := e
    by_cases h : k' = k
    · simpa [mdelete, h] using ih
    · simp [mdelete, h, mget, ih]

theorem mget_mdelete_ne (s : BackendStore) {k k' : String} (h : k' ≠ k) :
    mget (mdelete s k) k' = mget s k' := by
  have h' : k ≠ k' := Ne.symm h
  induction s with
  | nil => simp [mdelete]
  | cons e rest ih =>
    obtain ⟨k'', v''⟩ := e
    by_cases hk : k'' = k
    · subst hk
      simp [mdelete, mget, h', ih]
    · simp [mdelete, hk, mget, ih]

theorem mem_mkeys_mset (s : BackendStore) (k : String) (v : List Int)
    (k' : String) : k' ∈ mkeys (mset s k v) ↔ k' = k ∨ k' ∈ mkeys s := by
  induction s with
  | nil => simp [mset, mkeys]
  | cons e rest ih =>
    obtain ⟨k'', v''⟩ := e
    by_cases hk : k'' = k
    · subst hk
      simp [mset, mkeys]
    · simp [mset, hk, mkeys] at ih ⊢
      tauto

theorem mem_mkeys_mdelete (s : BackendStore) (k k' : String) :
    k' ∈ mkeys (mdelete s k) ↔ k' ∈ mkeys s ∧ k' ≠ k := by
  induction s with
  | nil => simp [mdelete, mkeys]
  | cons e rest ih =>
    obtain ⟨k'', v''⟩ := e
    by_cases hk : k'' = k
    · subst hk
      simp [mdelete, mkeys] at ih ⊢
      rw [ih]
      constructor
      · tauto
      · rintro ⟨h1 | h1, h2⟩
        · exact absurd h1 h2
        · exact ⟨h1, h2⟩
    · simp [mdelete, hk, mkeys] at ih ⊢
      rw [ih]
      constructor
      · rintro (h1 | ⟨h1, h2⟩)
        · subst h1
          exact ⟨Or.inl rfl, hk⟩
        · exact ⟨Or.inr h1, h2⟩
      · rintro ⟨h1 | h1, h2⟩
        · exact Or.inl h1
        · exact Or.inr ⟨h1, h2⟩

theorem mget_eq_nil_of_not_mem {s : BackendStore} {k : String}
    (h : k ∉ mkeys s) : mget s k = [] := by
  induction s with
  | nil => simp [mget]
  | cons e rest ih =>
    obtain ⟨k', v'⟩ := e
    simp [mkeys] at h ih
    simp [mget, Ne.symm h.1, ih h.2]

/-! ### Prune lemmas -/

theorem mem_prune {cfg : RateGate} {now t : Int} {l : List Int} :
    t ∈ prune cfg now l ↔ t ∈ l ∧ now - cfg.windowMs < t := by
  simp [prune]

theorem prune_eq_self {cfg : RateGate} {now : Int} {l : List Int}
    (h : ∀ t ∈ l, now - cfg.windowMs < t) : prune cfg now l = l := by
  rw [prune, List.filter_eq_self]
  intro a ha
  simpa using h a ha

theorem prune_sublist (cfg : RateGate) (now : Int) (l : List Int) :
    List.Sublist (prune cfg now l) l := List.filter_sublist l

theorem length_prune_le (cfg : RateGate) (now : Int) (l : List Int) :
    (prune cfg now l).length ≤ l.length :=
  (prune_sublist cfg now l).length_le

/-! ### Ceiling-division lemmas -/

theorem jsCeil1000_bounds (x : Int) :
    1000 * (jsCeil1000 x - 1) < x ∧ x ≤ 1000 * jsCeil1000 x := by
  unfold jsCeil1000
  rw [Int.fdiv_eq_ediv _ (by norm_num)]
  have h1 := Int.ediv_mul_le (-x) (show (1000 : ℤ) ≠ 0 by norm_num)
  have h2 := Int.lt_ediv_add_one_mul_self (-x) (show (0 : ℤ) < 1000 by norm_num)
  constructor <;> linarith

theorem jsCeil1000_eq_ceil (x : Int) : jsCeil1000 x = ⌈(x : ℚ) / 1000⌉ := by
  obtain ⟨h1, h2⟩ := jsCeil1000_bounds x
  symm
  rw [Int.ceil_eq_iff]
  constructor
  · rw [lt_div_iff₀ (by norm_num : (0 : ℚ) < 1000)]
    exact_mod_cast (by linarith : ((jsCeil1000 x - 1) * 1000 : ℤ) < x)
  · rw [div_le_iff₀ (by norm_num : (0 : ℚ) < 1000)]
    exact_mod_cast (by linarith : (x : ℤ) ≤ jsCeil1000 x * 1000)

theorem jsCeil1000_pos {x : Int} (h : 0 < x) : 0 < jsCeil1000 x := by
  obtain ⟨h1, h2⟩ := jsCeil1000_bounds x
  by_contra hc
  push_neg at hc
  linarith

/-! ### Gate operation lemmas -/

theorem mget_hit_ne (cfg : RateGate) (now : Int) (s : BackendStore)
    (k : String) {k' : String} (h : k' ≠ k) :
    mget (hit cfg now s k).2.1 k' = mget s k' := by
  by_cases hc : cfg.limit ≤ (prune cfg now (mget s k)).length
  · simp [hit, hc]
  · simp [hit, hc, mget_mset_ne _ h]

theorem check_fst_congr (cfg : RateGate) (now : Int) {s s' : BackendStore}
    {k : String} (h : mget s' k = mget s k) :
    (check cfg now s' k).1 = (check cfg now s k).1 := by
  unfold check
  rw [h]

theorem remaining_fst_congr (cfg : RateGate) (now : Int) {s s' : BackendStore}
    {k : String} (h : mget s' k = mget s k) :
    (remaining cfg now s' k).1 = (remaining cfg now s k).1 := by
  unfold remaining
  rw [h]

theorem resetIn_fst_congr (cfg : RateGate) (now : Int) {s s' : BackendStore}
    {k : String} (h : mget s' k = mget s k) :
    (resetIn cfg now s' k).1 = (resetIn cfg now s k).1 := by
  unfold resetIn
  rw [h]
  by_cases hc : (prune cfg now (mget s k)).length = 0 <;> simp [hc]

theorem hit_fst_congr (cfg : RateGate) (now : Int) {s s' : BackendStore}
    {k : String} (h : mget s' k = mget s k) :
    (hit cfg now s' k).1 = (hit cfg now s k).1 := by
  unfold hit
  rw [h]
  by_cases hc : cfg.limit ≤ (prune cfg now (mget s k)).length <;> simp [hc]

theorem hitSeq_ok (cfg : RateGate) (k : String) (T : Int) (ts : List Int) :
    ∀ (s : BackendStore) (acc : List Int),
      mget s k = acc →
      acc.length + ts.length ≤ cfg.limit →
      (∀ x ∈ acc ++ ts, T - cfg.windowMs < x) →
      (∀ x ∈ ts, x ≤ T) →
      ∃ s', hitSeq cfg k ts s = some s' ∧ mget s' k = acc ++ ts ∧
        ∀ k', k' ≠ k → mget s' k' = mget s k' := by
  induction ts with
  | nil =>
    intro s acc hget _ _ _
    exact ⟨s, rfl, by simpa using hget, fun _ _ => rfl⟩
  | cons t ts ih =>
    intro s acc hget hlen hwin hle
    have hvalid : prune cfg t (mget s k) = acc := by
      rw [hget]
      apply prune_eq_self
      intro a ha
      have h1 : T - cfg.windowMs < a := hwin a (List.mem_append_left _ ha)
      have h2 : t ≤ T := hle t (List.mem_cons_self _ _)
      linarith
    have hlen' : acc.length + (ts.length + 1) ≤ cfg.limit := by
      simpa using hlen
    have hcond : ¬ (cfg.limit ≤ acc.length) := by
      omega
    have hstep : hit cfg t s k =
        (Except.ok (), mset s k (acc ++ [t]),
          [BCall.bget k, BCall.bset k (acc ++ [t])]) := by
      simp [hit, hvalid, hcond]
    obtain ⟨s', h1, h2, h3⟩ := ih (mset s k (acc ++ [t])) (acc ++ [t])
      (mget_mset_self _ _ _)
      (by
        simp only [List.length_append, List.length_cons, List.length_nil]
        omega)
      (by
        intro x hx
        apply hwin
        simpa [List.append_assoc] using hx)
      (fun x hx => hle x (List.mem_cons_of_mem _ hx))
    refine ⟨s', ?_, ?_, ?_⟩
    · simp [hitSeq, hstep, h1]
    · rw [h2]
      simp
    · intro k' hk'
      rw [h3 k' hk', mget_mset_ne _ hk']

theorem mget_hitRun_ne (cfg : RateGate) (k : String) (ts : List Int) :
    ∀ (s : BackendStore) {k' : String}, k' ≠ k →
      mget (hitRun cfg k ts s) k' = mget s k' := by
  induction ts with
  | nil => intro s k' _; rfl
  | cons t ts ih =>
    intro s k' h
    rw [hitRun, ih _ h, mget_hit_ne _ _ _ _ h]

/-! ### Cleanup lemmas -/

theorem cleanupLoop_mget (cfg : RateGate) (now : Int) (ks : List String) :
    ∀ (s0 s : BackendStore), ks.Nodup →
      (∀ j ∈ ks, mget s j = mget s0 j) →
      ∀ k, mget (cleanupLoop cfg now ks s).1 k =
        if k ∈ ks then prune cfg now (mget s0 k) else mget s k := by
  induction ks with
  | nil =>
    intro s0 s _ _ k
    simp [cleanupLoop]
  | cons k0 ks ih =>
    intro s0 s hnd hagree k
    have hk0 : mget s k0 = mget s0 k0 := hagree k0 (by simp)
    have hk0nmem : k0 ∉ ks := (List.nodup_cons.mp hnd).1
    have hnd' : ks.Nodup := (List.nodup_cons.mp hnd).2
    by_cases hc1 : (prune cfg now (mget s k0)).length = 0
    · have hdel : prune cfg now (mget s0 k0) = [] := by
        rw [← hk0]
        exact List.length_eq_zero.mp hc1
      have heq : (cleanupLoop cfg now (k0 :: ks) s).1 =
          (cleanupLoop cfg now ks (mdelete s k0)).1 := by
        simp [cleanupLoop, hc1]
      rw [heq]
      have hagree' : ∀ j ∈ ks, mget (mdelete s k0) j = mget s0 j := by
        intro j hj
        have hne : j ≠ k0 := fun h => hk0nmem (h ▸ hj)
        rw [mget_mdelete_ne _ hne]
        exact hagree j (by simp [hj])
      rw [ih s0 (mdelete s k0) hnd' hagree' k]
      by_cases hmem : k ∈ ks
      · simp [hmem]
      · by_cases hk : k = k0
        · subst hk
          simp [hmem, hdel, mget_mdelete_self]
        · simp [hmem, hk, mget_mdelete_ne _ hk]
    · by_cases hc2 : (prune cfg now (mget s k0)).length < (mget s k0).length
      · have hset : prune cfg now (mget s0 k0) = prune cfg now (mget s k0) := by
          rw [hk0]
        have heq : (cleanupLoop cfg now (k0 :: ks) s).1 =
            (cleanupLoop cfg now ks
              (mset s k0 (prune cfg now (mget s k0)))).1 := by
          simp [cleanupLoop, hc1, hc2]
        rw [heq]
        have hagree' : ∀ j ∈ ks,
            mget (mset s k0 (prune cfg now (mget s k0))) j = mget s0 j := by
          intro j hj
          have hne : j ≠ k0 := fun h => hk0nmem (h ▸ hj)
          rw [mget_mset_ne _ hne]
          exact hagree j (by simp [hj])
        rw [ih s0 _ hnd' hagree' k]
        by_cases hmem : k ∈ ks
        · simp [hmem]
        · by_cases hk : k = k0
          · subst hk
            simp [hmem, hset, mget_mset_self]
          · simp [hmem, hk, mget_mset_ne _ hk]
      · have hvts : prune cfg now (mget s k0) = mget s k0 :=
          (prune_sublist cfg now (mget s k0)).eq_of_length_le (by omega)
        have heq : (cleanupLoop cfg now (k0 :: ks) s).1 =
            (cleanupLoop cfg now ks s).1 := by
          simp [cleanupLoop, hc1, hc2]
        rw [heq]
        have hagree' : ∀ j ∈ ks, mget s j = mget s0 j := by
          intro j hj
          exact hagree j (by simp [hj])
        rw [ih s0 s hnd' hagree' k]
        by_cases hmem : k ∈ ks
        · simp [hmem]
        · by_cases hk : k = k0
          · subst hk
            simp [hmem, ← hk0, hvts]
          · simp [hmem, hk]

theorem cleanupLoop_keys (cfg : RateGate) (now : Int) (ks : List String) :
    ∀ (s0 s : BackendStore), ks.Nodup →
      (∀ j ∈ ks, mget s j = mget s0 j) →
      ∀ k, (k ∈ mkeys (cleanupLoop cfg now ks s).1 ↔
        if k ∈ ks then k ∈ mkeys s ∧ prune cfg now (mget s0 k) ≠ []
        else k ∈ mkeys s) := by
  induction ks with
  | nil =>
    intro s0 s _ _ k
    simp [cleanupLoop]
  | cons k0 ks ih =>
    intro s0 s hnd hagree k
    have hk0 : mget s k0 = mget s0 k0 := hagree k0 (by simp)
    have hk0nmem : k0 ∉ ks := (List.nodup_cons.mp hnd).1
    have hnd' : ks.Nodup := (List.nodup_cons.mp hnd).2
    by_cases hc1 : (prune cfg now (mget s k0)).length = 0
    · have hdel : prune cfg now (mget s0 k0) = [] := by
        rw [← hk0]
        exact List.length_eq_zero.mp hc1
      have heq : (cleanupLoop cfg now (k0 :: ks) s).1 =
          (cleanupLoop cfg now ks (mdelete s k0)).1 := by
        simp [cleanupLoop, hc1]
      rw [heq]
      have hagree' : ∀ j ∈ ks, mget (mdelete s k0) j = mget s0 j := by
        intro j hj
        have hne : j ≠ k0 := fun h => hk0nmem (h ▸ hj)
        rw [mget_mdelete_ne _ hne]
        exact hagree j (by simp [hj])
      rw [ih s0 (mdelete s k0) hnd' hagree' k]
      by_cases hmem : k ∈ ks
      · simp [hmem, mem_mkeys_mdelete]
        intro _ _
        exact fun h => hk0nmem (h ▸ hmem)
      · by_cases hk : k = k0
        · subst hk
          simp [hmem, hdel, mem_mkeys_mdelete]
        · simp [hmem, hk, mem_mkeys_mdelete, hk]
    · by_cases hc2 : (prune cfg now (mget s k0)).length < (mget s k0).length
      · have hset : prune cfg now (mget s0 k0) = prune cfg now (mget s k0) := by
          rw [hk0]
        have hne0 : prune cfg now (mget s k0) ≠ [] := by
          intro h
          exact hc1 (by rw [h]; rfl)
        have hmem0 : k0 ∈ mkeys s := by
          by_contra hmm
          have : mget s k0 = [] := mget_eq_nil_of_not_mem hmm
          rw [this] at hne0
          simp [prune] at hne0
        have heq : (cleanupLoop cfg now (k0 :: ks) s).1 =
            (cleanupLoop cfg now ks
              (mset s k0 (prune cfg now (mget s k0)))).1 := by
          simp [cleanupLoop, hc1, hc2]
        rw [heq]
        have hagree' : ∀ j ∈ ks,
            mget (mset s k0 (prune cfg now (mget s k0))) j = mget s0 j := by
          intro j hj
          have hne : j ≠ k0 := fun h => hk0nmem (h ▸ hj)
          rw [mget_mset_ne _ hne]
          exact hagree j (by simp [hj])
        rw [ih s0 _ hnd' hagree' k]
        by_cases hmem : k ∈ ks
        · have hkne : k ≠ k0 := fun h => hk0nmem (h ▸ hmem)
          simp [hmem, mem_mkeys_mset, hkne]
        · by_cases hk : k = k0
          · subst hk
            simp [hmem, mem_mkeys_mset, hset, hne0, hmem0]
          · simp [hmem, hk, mem_mkeys_mset]
      · have hvts : prune cfg now (mget s k0) = mget s k0 :=
          (prune_sublist cfg now (mget s k0)).eq_of_length_le (by omega)
        have hne0 : prune cfg now (mget s0 k0) ≠ [] := by
          rw [← hk0]
          intro h
          exact hc1 (by rw [h]; rfl)
        have heq : (cleanupLoop cfg now (k0 :: ks) s).1 =
            (cleanupLoop cfg now ks s).1 := by
          simp [cleanupLoop, hc1, hc2]
        rw [heq]
        have hagree' : ∀ j ∈ ks, mget s j = mget s0 j := by
          intro j hj
          exact hagree j (by simp [hj])
        rw [ih s0 s hnd' hagree' k]
        by_cases hmem : k ∈ ks
        · simp [hmem]
        · by_cases hk : k = k0
          · subst hk
            simp [hmem, hne0]
          · simp [hmem, hk]

theorem hit_error_eq (cfg : RateGate) (now : Int) (s : BackendStore)
    (k : String) (h : cfg.limit ≤ (prune cfg now (mget s k)).length) :
    hit cfg now s k = (Except.error
      { message := "Rate limit exceeded for " ++ cfg.category ++
          ". Try again in " ++
          toString (jsCeil1000
            ((prune cfg now (mget s k)).headD 0 + cfg.windowMs - now)) ++ "s."
        resetIn := jsCeil1000
          ((prune cfg now (mget s k)).headD 0 + cfg.windowMs - now)
        limit := cfg.limit
        windowMs := cfg.windowMs },
      s, [BCall.bget k]) := by
  simp [hit, h]

theorem hit_ok_eq (cfg : RateGate) (now : Int) (s : BackendStore)
    (k : String) (h : ¬ (cfg.limit ≤ (prune cfg now (mget s k)).length)) :
    hit cfg now s k = (Except.ok (),
      mset s k (prune cfg now (mget s k) ++ [now]),
      [BCall.bget k, BCall.bset k (prune cfg now (mget s k) ++ [now])]) := by
  simp [hit, h]

theorem resetIn_snd (cfg : RateGate) (now : Int) (s : BackendStore)
    (k : String) : (resetIn cfg now s k).2 = (s, [BCall.bget k]) := by
  by_cases h : (prune cfg now (mget s k)).length = 0 <;> simp [resetIn, h]

/-! ### Claim theorems -/

/-- Claim C1: for every key and every sequence of `n ≤ limit` consecutive
`hit` calls on that key within one window, starting from no recorded state,
each hit succeeds by appending its instant to the valid timestamp sequence
and writing it back, and after the n-th hit `remaining` returns
`limit - n`. -/
theorem claim_C1 (cfg : RateGate) (k : String) (ts : List Int)
    (s : BackendStore) (T : Int)
    (hget : mget s k = [])
    (hn : ts.length ≤ cfg.limit)
    (hchain : ts.Chain' (· ≤ ·))
    (hwin : ∀ t ∈ ts, T - cfg.windowMs < t ∧ t ≤ T) :
    ∃ s', hitSeq cfg k ts s = some s' ∧ mget s' k = ts ∧
      (remaining cfg T s' k).1 = (cfg.limit : Int) - ts.length := by
  obtain ⟨s', h1, h2, _⟩ := hitSeq_ok cfg k T ts s [] hget
    (by simpa using hn)
    (by
      intro x hx
      exact (hwin x (by simpa using hx)).1)
    (fun x hx => (hwin x hx).2)
  have h2' : mget s' k = ts := by simpa using h2
  refine ⟨s', h1, h2', ?_⟩
  have hpr : prune cfg T (mget s' k) = ts := by
    rw [h2']
    exact prune_eq_self (fun t ht => (hwin t ht).1)
  have hlen : (ts.length : Int) ≤ (cfg.limit : Int) := by exact_mod_cast hn
  have hfst : (remaining cfg T s' k).1 =
      max 0 ((cfg.limit : Int) - ts.length) := by
    simp [remaining, hpr]
  rw [hfst, max_eq_right (by linarith)]

theorem claim_C1_witness :
    ∃ s', hitSeq ⟨3, 1000, "rate-limit"⟩ "k" [100, 200] [] = some s' ∧
      mget s' "k" = [100, 200] ∧
      (remaining ⟨3, 1000, "rate-limit"⟩ 200 s' "k").1 =
        ((3 : Nat) : Int) - (([100, 200] : List Int).length : Int) :=
  claim_C1 ⟨3, 1000, "rate-limit"⟩ "k" [100, 200] [] 200 rfl (by decide)
    (by norm_num [List.chain'_cons]) (by decide)

/-- Claim C2: `hit` fails exactly when the pruned count has reached the
limit; on failure the `RateLimitError` carries
`resetIn = ceil((oldest + windowMs - now) / 1000)` with the oldest valid
timestamp the first element of the pruned sequence, the configured `limit`
and `windowMs`, and a message naming the configured category. -/
theorem claim_C2 (cfg : RateGate) (s : BackendStore) (k : String) (now : Int)
    (hpos : 0 < cfg.limit) :
    ((prune cfg now (mget s k)).length < cfg.limit →
      (hit cfg now s k).1 = Except.ok ()) ∧
    (cfg.limit ≤ (prune cfg now (mget s k)).length →
      ∃ e, (hit cfg now s k).1 = Except.error e ∧
        prune cfg now (mget s k) ≠ [] ∧
        e.resetIn =
          ⌈(((prune cfg now (mget s k)).headD 0 + cfg.windowMs - now : ℤ) : ℚ)
            / 1000⌉ ∧
        e.limit = cfg.limit ∧ e.windowMs = cfg.windowMs ∧
        e.message = "Rate limit exceeded for " ++ cfg.category ++
          ". Try again in " ++ toString e.resetIn ++ "s.") := by
  constructor
  · intro h
    have hc : ¬ (cfg.limit ≤ (prune cfg now (mget s k)).length) := by omega
    exact congrArg Prod.fst (hit_ok_eq cfg now s k hc)
  · intro h
    have hne : prune cfg now (mget s k) ≠ [] := by
      intro h0
      rw [h0] at h
      simp at h
      omega
    refine ⟨_, congrArg Prod.fst (hit_error_eq cfg now s k h), hne, ?_, rfl,
      rfl, rfl⟩
    exact jsCeil1000_eq_ceil _

theorem claim_C2_witness :
    ((prune ⟨1, 1000, "api"⟩ 600 (mget [("k", [500])] "k")).length <
        (⟨1, 1000, "api"⟩ : RateGate).limit →
      (hit ⟨1, 1000, "api"⟩ 600 [("k", [500])] "k").1 = Except.ok ()) ∧
    ((⟨1, 1000, "api"⟩ : RateGate).limit ≤
        (prune ⟨1, 1000, "api"⟩ 600 (mget [("k", [500])] "k")).length →
      ∃ e, (hit ⟨1, 1000, "api"⟩ 600 [("k", [500])] "k").1 = Except.error e ∧
        prune ⟨1, 1000, "api"⟩ 600 (mget [("k", [500])] "k") ≠ [] ∧
        e.resetIn =
          ⌈(((prune ⟨1, 1000, "api"⟩ 600 (mget [("k", [500])] "k")).headD 0 +
              (⟨1, 1000, "api"⟩ : RateGate).windowMs - 600 : ℤ) : ℚ) / 1000⌉ ∧
        e.limit = (⟨1, 1000, "api"⟩ : RateGate).limit ∧
        e.windowMs = (⟨1, 1000, "api"⟩ : RateGate).windowMs ∧
        e.message = "Rate limit exceeded for " ++
          (⟨1, 1000, "api"⟩ : RateGate).category ++
          ". Try again in " ++ toString e.resetIn ++ "s.") :=
  claim_C2 ⟨1, 1000, "api"⟩ [("k", [500])] "k" 600 (by decide)

/-- Claim C3: after `limit` successful hits on a key within one window, the
`(limit+1)`-th hit within that same window fails, with `resetIn` strictly
positive and the failure's `limit` and `windowMs` equal to the configured
values. -/
theorem claim_C3 (cfg : RateGate) (k : String) (ts : List Int)
    (s : BackendStore) (now : Int)
    (hpos : 0 < cfg.limit)
    (hget : mget s k = [])
    (hlen : ts.length = cfg.limit)
    (hchain : ts.Chain' (· ≤ ·))
    (hwin : ∀ t ∈ ts, now - cfg.windowMs < t ∧ t ≤ now) :
    ∃ s' e, hitSeq cfg k ts s = some s' ∧
      (hit cfg now s' k).1 = Except.error e ∧
      0 < e.resetIn ∧ e.limit = cfg.limit ∧ e.windowMs = cfg.windowMs := by
  obtain ⟨s', h1, h2, _⟩ := hitSeq_ok cfg k now ts s [] hget
    (by simpa using hlen.le)
    (by
      intro x hx
      exact (hwin x (by simpa using hx)).1)
    (fun x hx => (hwin x hx).2)
  have h2' : mget s' k = ts := by simpa using h2
  have hpr : prune cfg now (mget s' k) = ts := by
    rw [h2']
    exact prune_eq_self (fun t ht => (hwin t ht).1)
  have hcond : cfg.limit ≤ (prune cfg now (mget s' k)).length := by
    simp [hpr, hlen]
  have hts_ne : ts ≠ [] := by
    intro h0
    rw [h0] at hlen
    simp at hlen
    omega
  have hhead : ts.headD 0 ∈ ts := by
    cases ts with
    | nil => exact absurd rfl hts_ne
    | cons a l => simp
  have hrpos : 0 < jsCeil1000 (ts.headD 0 + cfg.windowMs - now) :=
    jsCeil1000_pos (by linarith [(hwin _ hhead).1])
  refine ⟨s',
    { message := "Rate limit exceeded for " ++ cfg.category ++
        ". Try again in " ++
        toString (jsCeil1000
          ((prune cfg now (mget s' k)).headD 0 + cfg.windowMs - now)) ++ "s."
      resetIn := jsCeil1000
        ((prune cfg now (mget s' k)).headD 0 + cfg.windowMs - now)
      limit := cfg.limit
      windowMs := cfg.windowMs },
    h1, ?_, ?_, rfl, rfl⟩
  · exact congrArg Prod.fst (hit_error_eq cfg now s' k hcond)
  · show 0 < jsCeil1000 ((prune cfg now (mget s' k)).headD 0 + cfg.windowMs - now)
    rw [hpr]
    exact hrpos

theorem claim_C3_witness :
    ∃ s' e, hitSeq ⟨2, 1000, "api"⟩ "k" [100, 200] [] = some s' ∧
      (hit ⟨2, 1000, "api"⟩ 300 s' "k").1 = Except.error e ∧
      0 < e.resetIn ∧ e.limit = (⟨2, 1000, "api"⟩ : RateGate).limit ∧
      e.windowMs = (⟨2, 1000, "api"⟩ : RateGate).windowMs :=
  claim_C3 ⟨2, 1000, "api"⟩ "k" [100, 200] [] 300 (by decide) rfl (by decide)
    (by norm_num [List.chain'_cons]) (by decide)

/-- Claim C4: `check` returns true exactly when the pruned count is strictly
below the limit, leaves the store unchanged and issues no `set` or `delete`
call. -/
theorem claim_C4 (cfg : RateGate) (now : Int) (s : BackendStore)
    (k : String) :
    ((check cfg now s k).1 = true ↔
      (prune cfg now (mget s k)).length < cfg.limit) ∧
    (check cfg now s k).2.1 = s ∧
    (check cfg now s k).2.2.filter BCall.isWrite = [] := by
  refine ⟨?_, rfl, rfl⟩
  simp [check]

/-- Claim C5 counterexample: with `windowMs = 1000` and `now = 1000`, a
stored timestamp `0 = now - windowMs` (exactly at the window start) is
discarded by prune, not counted as valid, refuting the claim that such a
timestamp is counted. -/
theorem claim_C5_cex :
    (1000 : Int) - (⟨1, 1000, "rate-limit"⟩ : RateGate).windowMs = 0 ∧
    (0 : Int) ∉ prune ⟨1, 1000, "rate-limit"⟩ 1000 [0] ∧
    prune ⟨1, 1000, "rate-limit"⟩ 1000 [0] = [] := by
  refine ⟨rfl, ?_, rfl⟩
  simp [prune]

/-- Claim C5 (amended): a stored timestamp is retained by the prune step of
every operation exactly when it is strictly greater than `now - windowMs`;
a timestamp equal to `now - windowMs` is expired and never counted. -/
theorem claim_C5 (cfg : RateGate) (now t : Int) (l : List Int) :
    t ∈ prune cfg now l ↔ t ∈ l ∧ now - cfg.windowMs < t := mem_prune

/-- Claim C6: `resetIn` returns 0 for a key with no valid timestamps;
otherwise it returns `ceil((oldest + windowMs - now) / 1000)` clamped below
at 0, so the result is always non-negative; the call leaves the store
unchanged and issues no `set` or `delete`. -/
theorem claim_C6 (cfg : RateGate) (now : Int) (s : BackendStore)
    (k : String) :
    (prune cfg now (mget s k) = [] → (resetIn cfg now s k).1 = 0) ∧
    (prune cfg now (mget s k) ≠ [] →
      (resetIn cfg now s k).1 =
        max 0 ⌈(((prune cfg now (mget s k)).headD 0 + cfg.windowMs - now :
          ℤ) : ℚ) / 1000⌉) ∧
    0 ≤ (resetIn cfg now s k).1 ∧
    (resetIn cfg now s k).2.1 = s ∧
    (resetIn cfg now s k).2.2.filter BCall.isWrite = [] := by
  refine ⟨?_, ?_, ?_, ?_, ?_⟩
  · intro h
    simp [resetIn, h]
  · intro h
    have hlen : ¬ ((prune cfg now (mget s k)).length = 0) := by
      simpa [List.length_eq_zero] using h
    simp [resetIn, hlen, jsCeil1000_eq_ceil]
  · by_cases h : (prune cfg now (mget s k)).length = 0 <;>
      simp [resetIn, h]
  · exact congrArg Prod.fst (resetIn_snd cfg now s k)
  · have h := congrArg Prod.snd (resetIn_snd cfg now s k)
    simp only [h]
    rfl

/-- Claim C7: `cleanup` prunes every key's stored sequence against the
current instant: fully expired keys are deleted (so a key survives exactly
when some entry is unexpired) and the surviving stored sequence is exactly
the pruned one, leaving unexpired entries' counts unchanged. -/
theorem claim_C7 (cfg : RateGate) (now : Int) (s : BackendStore)
    (k : String) (hnd : (mkeys s).Nodup) :
    mget (cleanup cfg now s).1 k = prune cfg now (mget s k) ∧
    (k ∈ mkeys (cleanup cfg now s).1 ↔
      k ∈ mkeys s ∧ prune cfg now (mget s k) ≠ []) := by
  have hget := cleanupLoop_mget cfg now (mkeys s) s s hnd (fun _ _ => rfl) k
  have hkeys := cleanupLoop_keys cfg now (mkeys s) s s hnd (fun _ _ => rfl) k
  have hc : (cleanup cfg now s).1 = (cleanupLoop cfg now (mkeys s) s).1 := rfl
  constructor
  · rw [hc, hget]
    by_cases hm : k ∈ mkeys s
    · simp [hm]
    · simp [hm, mget_eq_nil_of_not_mem hm, prune]
  · rw [hc, hkeys]
    by_cases hm : k ∈ mkeys s
    · simp [hm]
    · simp [hm]

theorem claim_C7_witness :
    mget (cleanup ⟨5, 50, "rate-limit"⟩ 100 [("a", [0]), ("b", [5, 100])]).1
        "a" =
      prune ⟨5, 50, "rate-limit"⟩ 100
        (mget [("a", [0]), ("b", [5, 100])] "a") ∧
    ("a" ∈ mkeys (cleanup ⟨5, 50, "rate-limit"⟩ 100
        [("a", [0]), ("b", [5, 100])]).1 ↔
      "a" ∈ mkeys [("a", [0]), ("b", [5, 100])] ∧
      prune ⟨5, 50, "rate-limit"⟩ 100
        (mget [("a", [0]), ("b", [5, 100])] "a") ≠ []) :=
  claim_C7 ⟨5, 50, "rate-limit"⟩ 100 [("a", [0]), ("b", [5, 100])] "a"
    (by decide)

/-- Claim C8: `check`, `remaining` and `resetIn` never issue a `set` or
`delete` and leave the store unchanged, and a `hit` that fails leaves the
backend state exactly as it was and issues no write either. -/
theorem claim_C8 (cfg : RateGate) (s : BackendStore) (k : String) (now : Int)
    (hfail : cfg.limit ≤ (prune cfg now (mget s k)).length) :
    (check cfg now s k).2.1 = s ∧
    (check cfg now s k).2.2.filter BCall.isWrite = [] ∧
    (remaining cfg now s k).2.1 = s ∧
    (remaining cfg now s k).2.2.filter BCall.isWrite = [] ∧
    (resetIn cfg now s k).2.1 = s ∧
    (resetIn cfg now s k).2.2.filter BCall.isWrite = [] ∧
    (∃ e, (hit cfg now s k).1 = Except.error e) ∧
    (hit cfg now s k).2.1 = s ∧
    (hit cfg now s k).2.2.filter BCall.isWrite = [] := by
  have hr := resetIn_snd cfg now s k
  have he := hit_error_eq cfg now s k hfail
  refine ⟨rfl, rfl, rfl, rfl, ?_, ?_, ⟨_, congrArg Prod.fst he⟩, ?_, ?_⟩
  · exact congrArg Prod.fst hr
  · have h := congrArg Prod.snd hr
    simp only [h]
    rfl
  · exact congrArg (fun p => p.2.1) he
  · have h := congrArg (fun p => p.2.2) he
    simp only [h]
    rfl

theorem claim_C8_witness :
    (check ⟨1, 1000, "rate-limit"⟩ 600 [("k", [500])] "k").2.1 =
      [("k", [500])] ∧
    (check ⟨1, 1000, "rate-limit"⟩ 600 [("k", [500])]
      "k").2.2.filter BCall.isWrite = [] ∧
    (remaining ⟨1, 1000, "rate-limit"⟩ 600 [("k", [500])] "k").2.1 =
      [("k", [500])] ∧
    (remaining ⟨1, 1000, "rate-limit"⟩ 600 [("k", [500])]
      "k").2.2.filter BCall.isWrite = [] ∧
    (resetIn ⟨1, 1000, "rate-limit"⟩ 600 [("k", [500])] "k").2.1 =
      [("k", [500])] ∧
    (resetIn ⟨1, 1000, "rate-limit"⟩ 600 [("k", [500])]
      "k").2.2.filter BCall.isWrite = [] ∧
    (∃ e, (hit ⟨1, 1000, "rate-limit"⟩ 600 [("k", [500])] "k").1 =
      Except.error e) ∧
    (hit ⟨1, 1000, "rate-limit"⟩ 600 [("k", [500])] "k").2.1 =
      [("k", [500])] ∧
    (hit ⟨1, 1000, "rate-limit"⟩ 600 [("k", [500])]
      "k").2.2.filter BCall.isWrite = [] :=
  claim_C8 ⟨1, 1000, "rate-limit"⟩ [("k", [500])] "k" 600 (by decide)

/-- Claim C9: distinct keys are independent — any sequence of `hit` calls on
one key leaves the stored state for another key unchanged and does not alter
the results of `check`, `remaining`, `resetIn` or the outcome of `hit` for
that other key. -/
theorem claim_C9 (cfg : RateGate) (k1 k2 : String) (ts : List Int)
    (s : BackendStore) (now : Int) (hne : k1 ≠ k2) :
    mget (hitRun cfg k1 ts s) k2 = mget s k2 ∧
    (check cfg now (hitRun cfg k1 ts s) k2).1 = (check cfg now s k2).1 ∧
    (remaining cfg now (hitRun cfg k1 ts s) k2).1 =
      (remaining cfg now s k2).1 ∧
    (resetIn cfg now (hitRun cfg k1 ts s) k2).1 = (resetIn cfg now s k2).1 ∧
    (hit cfg now (hitRun cfg k1 ts s) k2).1 = (hit cfg now s k2).1 := by
  have hm : mget (hitRun cfg k1 ts s) k2 = mget s k2 :=
    mget_hitRun_ne cfg k1 ts s (Ne.symm hne)
  exact ⟨hm, check_fst_congr cfg now hm, remaining_fst_congr cfg now hm,
    resetIn_fst_congr cfg now hm, hit_fst_congr cfg now hm⟩

theorem claim_C9_witness :
    mget (hitRun ⟨1, 1000, "rate-limit"⟩ "a" [100, 150] []) "b" =
      mget [] "b" ∧
    (check ⟨1, 1000, "rate-limit"⟩ 150
        (hitRun ⟨1, 1000, "rate-limit"⟩ "a" [100, 150] []) "b").1 =
      (check ⟨1, 1000, "rate-limit"⟩ 150 [] "b").1 ∧
    (remaining ⟨1, 1000, "rate-limit"⟩ 150
        (hitRun ⟨1, 1000, "rate-limit"⟩ "a" [100, 150] []) "b").1 =
      (remaining ⟨1, 1000, "rate-limit"⟩ 150 [] "b").1 ∧
    (resetIn ⟨1, 1000, "rate-limit"⟩ 150
        (hitRun ⟨1, 1000, "rate-limit"⟩ "a" [100, 150] []) "b").1 =
      (resetIn ⟨1, 1000, "rate-limit"⟩ 150 [] "b").1 ∧
    (hit ⟨1, 1000, "rate-limit"⟩ 150
        (hitRun ⟨1, 1000, "rate-limit"⟩ "a" [100, 150] []) "b").1 =
      (hit ⟨1, 1000, "rate-limit"⟩ 150 [] "b").1 :=
  claim_C9 ⟨1, 1000, "rate-limit"⟩ "a" "b" [100, 150] [] 150 (by decide)

/-- Claim C10: with a positive limit, every operation preserves the
invariant that each key's stored sequence has length at most `limit`: a
successful `hit` writes the pruned sequence (shorter than `limit`) plus one
entry, `cleanup` only shrinks or deletes stored sequences, and the read-only
operations leave the store untouched. -/
theorem claim_C10 (cfg : RateGate) (s : BackendStore) (now : Int)
    (k k' : String)
    (hpos : 0 < cfg.limit)
    (hnd : (mkeys s).Nodup)
    (hinv : (mget s k').length ≤ cfg.limit) :
    (mget (hit cfg now s k).2.1 k').length ≤ cfg.limit ∧
    (mget (cleanup cfg now s).1 k').length ≤ cfg.limit ∧
    (check cfg now s k).2.1 = s ∧
    (remaining cfg now s k).2.1 = s ∧
    (resetIn cfg now s k).2.1 = s := by
  refine ⟨?_, ?_, rfl, rfl, congrArg Prod.fst (resetIn_snd cfg now s k)⟩
  · by_cases hc : cfg.limit ≤ (prune cfg now (mget s k)).length
    · have hst : (hit cfg now s k).2.1 = s :=
        congrArg (fun p => p.2.1) (hit_error_eq cfg now s k hc)
      rw [hst]
      exact hinv
    · have hst : (hit cfg now s k).2.1 =
          mset s k (prune cfg now (mget s k) ++ [now]) :=
        congrArg (fun p => p.2.1) (hit_ok_eq cfg now s k hc)
      rw [hst]
      by_cases hk : k' = k
      · subst hk
        rw [mget_mset_self]
        simp only [List.length_append, List.length_cons, List.length_nil]
        omega
      · rw [mget_mset_ne _ hk]
        exact hinv
  · have hget := cleanupLoop_mget cfg now (mkeys s) s s hnd (fun _ _ => rfl) k'
    have hc : (cleanup cfg now s).1 = (cleanupLoop cfg now (mkeys s) s).1 := rfl
    rw [hc, hget]
    by_cases hm : k' ∈ mkeys s
    · simp only [hm, if_true]
      exact le_trans (length_prune_le _ _ _) hinv
    · simp only [hm, if_false]
      exact hinv

theorem claim_C10_witness :
    (mget (hit ⟨2, 1000, "rate-limit"⟩ 150 [("a", [100])] "a").2.1
      "a").length ≤ (⟨2, 1000, "rate-limit"⟩ : RateGate).limit ∧
    (mget (cleanup ⟨2, 1000, "rate-limit"⟩ 150 [("a", [100])]).1
      "a").length ≤ (⟨2, 1000, "rate-limit"⟩ : RateGate).limit ∧
    (check ⟨2, 1000, "rate-limit"⟩ 150 [("a", [100])] "a").2.1 =
      [("a", [100])] ∧
    (remaining ⟨2, 1000, "rate-limit"⟩ 150 [("a", [100])] "a").2.1 =
      [("a", [100])] ∧
    (resetIn ⟨2, 1000, "rate-limit"⟩ 150 [("a", [100])] "a").2.1 =
      [("a", [100])] :=
  claim_C10 ⟨2, 1000, "rate-limit"⟩ [("a", [100])] 150 "a" "a" (by decide)
    (by decide) (by decide)
